import Mathlib

/-!
Verification development for the real-time presence and notification routing
subsystem (src/backend/websocket/presence.py and src/backend/websocket/events.py).

Modelling conventions:
  * Python dicts are association lists (List (String × β)) with unique keys in
    any state the program can build; setVal updates the first matching entry in
    place (Python dicts update in place and preserve insertion order) and
    appends a fresh key at the end; delKey removes the entries for a key.
  * Python sets are duplicate-free lists in insertion order: addElem is set.add
    (no-op when the element is present, append otherwise), erase1 is
    set.discard, and the iteration order of a set is modelled by list order.
  * datetime.now(timezone.utc).isoformat() is passed in as an explicit `now`
    argument.
  * socketio emissions are recorded as a list of Emit values carrying the
    resolution target (the calling connection, a named room, or a direct
    session) instead of being delivered; transport-level room membership
    (join_room / leave_room) is not part of the tracked state.
-/

/-- Lookup in an association list, first matching key wins (Python dict lookup). -/
def getVal (k : String) : List (String × β) → Option β
  | [] => none
  | p :: ps => if p.1 = k then some p.2 else getVal k ps

/-- Key membership test (Python `k in d`). -/
def hasKey (k : String) (m : List (String × β)) : Bool :=
  (getVal k m).isSome

/-- Update the first entry for a key in place, or append a fresh entry
(Python `d[k] = v`, which preserves insertion order on update). -/
def setVal (k : String) (v : β) : List (String × β) → List (String × β)
  | [] => [(k, v)]
  | p :: ps => if p.1 = k then (k, v) :: ps else p :: setVal k v ps

/-- Remove the entries for a key (Python `del d[k]`; a dict holds the key once). -/
def delKey (k : String) : List (String × β) → List (String × β)
  | [] => []
  | p :: ps => if p.1 = k then delKey k ps else p :: delKey k ps

/-- Python set.add: no-op when present, append otherwise. -/
def addElem [DecidableEq α] (x : α) (l : List α) : List α :=
  if x ∈ l then l else l ++ [x]

/-- Python set.discard: remove the (single) occurrence when present. -/
def erase1 [DecidableEq α] (x : α) : List α → List α
  | [] => []
  | y :: ys => if y = x then ys else y :: erase1 x ys

/-- Session metadata stored by join_document in _session_info. -/
structure SessionInfo where
  user_id : String
  user_name : Option String
  user_email : Option String
  joined_at : String
deriving DecidableEq

/-- State of the DocumentPresence tracker: the three dictionaries
_document_users, _session_info and _session_documents. -/
structure PState where
  document_users : List (String × List (String × String))
  session_info : List (String × SessionInfo)
  session_documents : List (String × List String)
deriving DecidableEq

/-- Freshly initialised tracker (__init__). -/
def initState : PState := ⟨[], [], []⟩

/-- Member list of a document room (empty when the document has no entry). -/
def roomOfMap (d : String) (du : List (String × List (String × String))) :
    List (String × String) :=
  (getVal d du).getD []

/-- Member list of a document room in a tracker state. -/
def roomOf (d : String) (st : PState) : List (String × String) :=
  roomOfMap d st.document_users

/-- Reverse-index document set of a session (empty when the session has no entry). -/
def docsOf (s : String) (st : PState) : List String :=
  (getVal s st.session_documents).getD []

/-- User dict built by _get_document_users for one room member: the user id and
session id come from the tuple, the rest from _session_info (None fields when
the session has no stored info). -/
structure UserView where
  user_id : String
  session_id : String
  user_name : Option String
  user_email : Option String
  joined_at : Option String
deriving DecidableEq

/-- The skip test in _get_document_users:
`if exclude_session and session_id == exclude_session: continue` —
Python truthiness makes None and the empty string skip nothing. -/
def skipEntry (exclude : Option String) (sess : String) : Bool :=
  match exclude with
  | none => false
  | some e => decide (e ≠ "") && decide (sess = e)

/-- Build the user dict for one room member. -/
def viewOf (si : List (String × SessionInfo)) (e : String × String) : UserView :=
  match getVal e.2 si with
  | some i => ⟨e.1, e.2, i.user_name, i.user_email, some i.joined_at⟩
  | none => ⟨e.1, e.2, none, none, none⟩

/-- DocumentPresence._get_document_users: iterate the room, skip the excluded
session, and look up each member in _session_info. -/
def getDocumentUsersEx (st : PState) (d : String) (exclude : Option String) :
    List UserView :=
  (roomOf d st).filterMap (fun e =>
    if skipEntry exclude e.2 then none else some (viewOf st.session_info e))

/-- DocumentPresence.get_document_users (membersOf). -/
def get_document_users (st : PState) (d : String) : List UserView :=
  getDocumentUsersEx st d none

/-- DocumentPresence.join_document. The source first inserts an empty set for a
missing document key and then mutates it in place; both cases collapse to one
setVal of the updated member list (in place for a present key, appended for a
fresh one, exactly as the dict ends up). Same for _session_documents. -/
def join_document (d u s : String) (un ue : Option String) (now : String)
    (st : PState) : List UserView × PState :=
  let room := roomOf d st
  let du := setVal d (addElem (u, s) room) st.document_users
  let si := setVal s ⟨u, un, ue, now⟩ st.session_info
  let docs := docsOf s st
  let sd := setVal s (addElem d docs) st.session_documents
  let st' : PState := ⟨du, si, sd⟩
  (getDocumentUsersEx st' d (some s), st')

/-- Shared room-removal snippet of leave_document and disconnect_session:
find the first tuple of the session in the room, discard it, and delete the
room if it became empty. The Bool reports whether a tuple was removed. -/
def removeFromRooms (s d : String) (du : List (String × List (String × String))) :
    List (String × List (String × String)) × Bool :=
  if hasKey d du then
    let room := roomOfMap d du
    match room.find? (fun e => decide (e.2 = s)) with
    | some t =>
      let room' := erase1 t room
      (if room' = [] then delKey d du else setVal d room' du, true)
    | none => (du, false)
  else (du, false)

/-- The pure removal effect on one member list: drop the first tuple of the
session, keep the list unchanged when the session has no tuple. -/
def removeFirstSession (s : String) (room : List (String × String)) :
    List (String × String) :=
  match room.find? (fun e => decide (e.2 = s)) with
  | some t => erase1 t room
  | none => room

/-- DocumentPresence.leave_document. Note that the returned value is the
_session_info entry fetched up front, not evidence of an actual removal. -/
def leave_document (d s : String) (st : PState) : Option SessionInfo × PState :=
  let user_info := getVal s st.session_info
  let du := (removeFromRooms s d st.document_users).1
  let sd :=
    if hasKey s st.session_documents then
      let docs := erase1 d (docsOf s st)
      if docs = [] then delKey s st.session_documents
      else setVal s docs st.session_documents
    else st.session_documents
  (user_info, ⟨du, st.session_info, sd⟩)

/-- Loop body of disconnect_session: remove the session from one room and
record a (document, info) pair when a tuple was actually removed. -/
def discStep (s : String) (ui : Option SessionInfo)
    (acc : List (String × Option SessionInfo) × List (String × List (String × String)))
    (d : String) :
    List (String × Option SessionInfo) × List (String × List (String × String)) :=
  let r := removeFromRooms s d acc.2
  (if r.2 then acc.1 ++ [(d, ui)] else acc.1, r.1)

/-- DocumentPresence.disconnect_session: walk the reverse-index set of the
session, remove the session from each of those rooms, collect one
(document, info) pair per actual removal, then drop both session keys. -/
def disconnect_session (s : String) (st : PState) :
    List (String × Option SessionInfo) × PState :=
  let user_info := getVal s st.session_info
  let documents := docsOf s st
  let res := documents.foldl (discStep s user_info) ([], st.document_users)
  let sd := if hasKey s st.session_documents then delKey s st.session_documents
            else st.session_documents
  let si := if hasKey s st.session_info then delKey s st.session_info
            else st.session_info
  (res.1, ⟨res.2, si, sd⟩)

/-- The user_sessions dict of events.py: user id → set of session ids. -/
abbrev Registry := List (String × List String)

/-- events.register_user_session. -/
def register_user_session (u s : String) (reg : Registry) : Registry :=
  setVal u (addElem s ((getVal u reg).getD [])) reg

/-- events.unregister_user_session: discard the session and drop the user key
when its set became empty. -/
def unregister_user_session (u s : String) (reg : Registry) : Registry :=
  if hasKey u reg then
    let sess := erase1 s ((getVal u reg).getD [])
    if sess = [] then delKey u reg else setVal u sess reg
  else reg

/-- events.get_user_sessions. -/
def get_user_sessions (u : String) (reg : Registry) : List String :=
  (getVal u reg).getD []

/-- Resolution target of a socketio emit. -/
inductive Target where
  | caller
  | room (name : String) (includeSelf : Bool)
  | session (sid : String)
deriving DecidableEq

/-- Payloads of the outbound events the modelled handlers emit. Opaque
dict payloads (notifications) are carried as strings. -/
inductive Payload where
  | error (message : String)
  | documentJoined (document_id : String) (users : List UserView)
  | userJoined (document_id user_id : String) (user_name user_email : Option String)
      (session_id : String)
  | documentLeft (document_id : String)
  | userLeft (document_id : String) (user_id user_name : Option String)
      (session_id : String)
  | notificationData (data : String)
deriving DecidableEq

/-- One recorded socketio emission. -/
structure Emit where
  target : Target
  event : String
  payload : Payload
deriving DecidableEq

/-- events.send_notification_to_user: one notification emit per registered
session of the user. -/
def send_notification_to_user (u : String) (p : String) (reg : Registry) :
    List Emit :=
  (get_user_sessions u reg).map
    (fun sid => ⟨Target.session sid, "notification", Payload.notificationData p⟩)

/-- Python truthiness of an optional string field (`data.get(k)` then `if not x`). -/
def truthy : Option String → Bool
  | none => false
  | some x => decide (x ≠ "")

/-- Inbound payload of a join_document event. -/
structure JoinData where
  document_id : Option String
  user_id : Option String
  user_name : Option String
  user_email : Option String
deriving DecidableEq

/-- events.handle_join_document. The registry is carried through untouched
(the handler never mutates user_sessions). join_room only affects
transport-level room membership and is not tracked. -/
def handle_join_document (data : JoinData) (sid now : String) (st : PState)
    (reg : Registry) : PState × Registry × List Emit :=
  if truthy data.document_id = false || truthy data.user_id = false then
    (st, reg, [⟨Target.caller, "error",
      Payload.error "document_id and user_id are required"⟩])
  else
    let d := data.document_id.getD ""
    let u := data.user_id.getD ""
    let r := join_document d u sid data.user_name data.user_email now st
    (r.2, reg,
      [⟨Target.caller, "document_joined", Payload.documentJoined d r.1⟩,
       ⟨Target.room (String.append "document:" d) false, "user_joined",
         Payload.userJoined d u data.user_name data.user_email sid⟩])

/-- events.handle_leave_document: leave the presence room, emit user_left to
the room when leave_document returned an info dict (dicts with keys are
truthy), then acknowledge to the caller. -/
def handle_leave_document (docField : Option String) (sid : String)
    (st : PState) : PState × List Emit :=
  if truthy docField = false then
    (st, [⟨Target.caller, "error", Payload.error "document_id is required"⟩])
  else
    let d := docField.getD ""
    let r := leave_document d sid st
    let leftEvs : List Emit :=
      match r.1 with
      | some i => [⟨Target.room (String.append "document:" d) true, "user_left",
          Payload.userLeft d (some i.user_id) i.user_name sid⟩]
      | none => []
    (r.2, leftEvs ++ [⟨Target.caller, "document_left", Payload.documentLeft d⟩])

/-- Loop body of handle_disconnect: emit user_left for one left room and,
when the info dict is present with a truthy user_id, unregister that user id
and session from the notification registry. -/
def discEmitStep (s : String) (acc : Registry × List Emit)
    (p : String × Option SessionInfo) : Registry × List Emit :=
  let ev : Emit := ⟨Target.room (String.append "document:" p.1) true, "user_left",
    Payload.userLeft p.1 (p.2.map (fun i => i.user_id))
      (p.2.bind (fun i => i.user_name)) s⟩
  let reg' := match p.2 with
    | some i => if i.user_id ≠ "" then unregister_user_session i.user_id s acc.1
                else acc.1
    | none => acc.1
  (reg', acc.2 ++ [ev])

/-- events.handle_disconnect: disconnect_session, then walk the returned
(document, info) pairs with discEmitStep. -/
def handle_disconnect (s : String) (st : PState) (reg : Registry) :
    PState × Registry × List Emit :=
  let r := disconnect_session s st
  let rr := r.1.foldl (discEmitStep s) (reg, [])
  (r.2, rr.1, rr.2)

/-! Reachability and the inductive invariant. -/

/-- States reachable by the three mutating operations from a fresh tracker. -/
inductive Reachable : PState → Prop where
  | init : Reachable initState
  | join {st : PState} (d u s : String) (un ue : Option String) (now : String) :
      Reachable st → Reachable (join_document d u s un ue now st).2
  | leave {st : PState} (d s : String) :
      Reachable st → Reachable (leave_document d s st).2
  | disconnect {st : PState} (s : String) :
      Reachable st → Reachable (disconnect_session s st).2

/-- Safety condition on a join: the joining connection does not already sit in
that room under a different user id. -/
def JoinSafe (d u s : String) (st : PState) : Prop :=
  ∀ e ∈ roomOf d st, e.2 = s → e.1 = u

/-- States reachable when every join satisfies JoinSafe (a connection never
re-joins a document under a different user id). -/
inductive ReachableSafe : PState → Prop where
  | init : ReachableSafe initState
  | join {st : PState} (d u s : String) (un ue : Option String) (now : String) :
      ReachableSafe st → JoinSafe d u s st →
      ReachableSafe (join_document d u s un ue now st).2
  | leave {st : PState} (d s : String) :
      ReachableSafe st → ReachableSafe (leave_document d s st).2
  | disconnect {st : PState} (s : String) :
      ReachableSafe st → ReachableSafe (disconnect_session s st).2

/-- Inductive invariant: rooms and reverse-index sets are duplicate-free, a
connection holds at most one tuple per room, and the reverse index agrees with
room membership. -/
def PresenceInv (st : PState) : Prop :=
  (∀ d, (roomOf d st).Nodup) ∧
  (∀ c, (docsOf c st).Nodup) ∧
  (∀ d, ∀ e₁ ∈ roomOf d st, ∀ e₂ ∈ roomOf d st, e₁.2 = e₂.2 → e₁ = e₂) ∧
  (∀ c d, d ∈ docsOf c st ↔ ∃ e ∈ roomOf d st, e.2 = c)

/-- No document key maps to an empty member set (the source deletes a room as
soon as its set becomes empty). -/
def RoomsNonempty (st : PState) : Prop :=
  ∀ q ∈ st.document_users, q.2 ≠ []

/-- Tracker state after join_document("d", "u", "s") on a fresh tracker. -/
def stJoin1 : PState := (join_document "d" "u" "s" none none "t" initState).2

/-- Tracker state after the same connection s joins document d twice, under
user id u1 and then under user id u2. -/
def stTwoUsers : PState :=
  (join_document "d" "u2" "s" none none "t2"
    (join_document "d" "u1" "s" none none "t1" initState).2).2

/-! Lemmas about the dict and set primitives. -/

theorem getVal_setVal_self (k : String) (v : β) (m : List (String × β)) :
    getVal k (setVal k v m) = some v := by
  induction m with
  | nil => simp [getVal, setVal]
  | cons p ps ih =>
    by_cases h : p.1 = k
    · simp [getVal, setVal, h]
    · simp [getVal, setVal, h, ih]

theorem getVal_setVal_ne {k' k : String} (hk : k' ≠ k) (v : β) (m : List (String × β)) :
    getVal k' (setVal k v m) = getVal k' m := by
  have hkk : ¬ k = k' := fun h => hk h.symm
  induction m with
  | nil => simp [getVal, setVal, hkk]
  | cons p ps ih =>
    by_cases h : p.1 = k
    · have h2 : ¬ p.1 = k' := fun hh => hk (hh.symm.trans h)
      rw [setVal, if_pos h, getVal, if_neg hkk, getVal, if_neg h2]
    · rw [setVal, if_neg h, getVal]
      by_cases h2 : p.1 = k'
      · rw [if_pos h2, getVal, if_pos h2]
      · rw [if_neg h2, getVal, if_neg h2, ih]

theorem getVal_delKey_self (k : String) (m : List (String × β)) :
    getVal k (delKey k m) = none := by
  induction m with
  | nil => simp [getVal, delKey]
  | cons p ps ih =>
    by_cases h : p.1 = k
    · rw [delKey, if_pos h]; exact ih
    · rw [delKey, if_neg h, getVal, if_neg h]; exact ih

theorem getVal_delKey_ne {k' k : String} (hk : k' ≠ k) (m : List (String × β)) :
    getVal k' (delKey k m) = getVal k' m := by
  induction m with
  | nil => simp [getVal, delKey]
  | cons p ps ih =>
    by_cases h : p.1 = k
    · have h2 : ¬ p.1 = k' := fun hh => hk (hh.symm.trans h)
      rw [delKey, if_pos h, ih, getVal, if_neg h2]
    · rw [delKey, if_neg h, getVal]
      by_cases h2 : p.1 = k'
      · rw [if_pos h2, getVal, if_pos h2]
      · rw [if_neg h2, getVal, if_neg h2, ih]

theorem hasKey_false_getVal {k : String} {m : List (String × β)}
    (h : hasKey k m = false) : getVal k m = none := by
  unfold hasKey at h
  cases hv : getVal k m with
  | none => rfl
  | some v => rw [hv] at h; simp at h

theorem getVal_mem {k : String} {v : β} {m : List (String × β)}
    (h : getVal k m = some v) : (k, v) ∈ m := by
  induction m with
  | nil => simp [getVal] at h
  | cons p ps ih =>
    by_cases hp : p.1 = k
    · rw [getVal, if_pos hp] at h
      have hpv : p = (k, v) := by
        obtain ⟨a, b⟩ := p
        simp only [Option.some.injEq] at h
        simp only at hp
        rw [hp, h]
      rw [← hpv]
      exact List.mem_cons_self _ _
    · rw [getVal, if_neg hp] at h
      exact List.mem_cons_of_mem _ (ih h)

theorem mem_setVal {q : String × β} {k : String} {v : β} {m : List (String × β)}
    (h : q ∈ setVal k v m) : q = (k, v) ∨ q ∈ m := by
  induction m with
  | nil => rw [setVal] at h; simp at h; simp [h]
  | cons p ps ih =>
    by_cases hp : p.1 = k
    · rw [setVal, if_pos hp] at h
      rcases List.mem_cons.mp h with h | h
      · left; exact h
      · right; exact List.mem_cons_of_mem _ h
    · rw [setVal, if_neg hp] at h
      rcases List.mem_cons.mp h with h | h
      · right; simp [h]
      · rcases ih h with h2 | h2
        · left; exact h2
        · right; exact List.mem_cons_of_mem _ h2

theorem mem_delKey {q : String × β} {k : String} {m : List (String × β)}
    (h : q ∈ delKey k m) : q ∈ m := by
  induction m with
  | nil => simpa [delKey] using h
  | cons p ps ih =>
    by_cases hp : p.1 = k
    · rw [delKey, if_pos hp] at h
      exact List.mem_cons_of_mem _ (ih h)
    · rw [delKey, if_neg hp] at h
      rcases List.mem_cons.mp h with h | h
      · simp [h]
      · exact List.mem_cons_of_mem _ (ih h)

theorem setVal_setVal_same (k : String) (v w : β) (m : List (String × β)) :
    setVal k w (setVal k v m) = setVal k w m := by
  induction m with
  | nil => simp [setVal]
  | cons p ps ih =>
    by_cases hp : p.1 = k
    · simp [setVal, hp]
    · simp [setVal, hp, ih]

theorem mem_addElem [DecidableEq α] (a x : α) (l : List α) :
    a ∈ addElem x l ↔ a = x ∨ a ∈ l := by
  unfold addElem
  by_cases h : x ∈ l
  · rw [if_pos h]
    constructor
    · exact fun ha => Or.inr ha
    · rintro (rfl | ha)
      · exact h
      · exact ha
  · rw [if_neg h]
    simp [or_comm]

theorem addElem_ne_nil [DecidableEq α] (x : α) (l : List α) : addElem x l ≠ [] := by
  unfold addElem
  by_cases h : x ∈ l
  · rw [if_pos h]
    intro hc
    rw [hc] at h
    exact List.not_mem_nil x h
  · rw [if_neg h]
    simp

theorem nodup_addElem [DecidableEq α] (x : α) (hl : l.Nodup) : (addElem x l).Nodup := by
  unfold addElem
  by_cases h : x ∈ l
  · simpa [h] using hl
  · simp only [h, if_false]
    rw [List.nodup_append]
    exact ⟨hl, List.nodup_singleton x, by simpa using fun hx => h hx⟩

theorem addElem_idem [DecidableEq α] (x : α) (l : List α) :
    addElem x (addElem x l) = addElem x l := by
  unfold addElem
  by_cases h : x ∈ l
  · simp [h]
  · simp [h]

theorem mem_erase1 [DecidableEq α] {a x : α} (h : a ∈ erase1 x l) : a ∈ l := by
  induction l with
  | nil => simpa [erase1] using h
  | cons y ys ih =>
    by_cases hy : y = x
    · simp [erase1, hy] at h
      exact List.mem_cons_of_mem _ h
    · simp [erase1, hy] at h
      rcases h with h | h
      · simp [h]
      · exact List.mem_cons_of_mem _ (ih h)

theorem mem_erase1_of_ne [DecidableEq α] {a x : α} (hax : a ≠ x) :
    a ∈ erase1 x l ↔ a ∈ l := by
  induction l with
  | nil => simp [erase1]
  | cons y ys ih =>
    by_cases hy : y = x
    · rw [erase1, if_pos hy]
      constructor
      · exact fun h => List.mem_cons_of_mem _ h
      · intro h
        rcases List.mem_cons.mp h with h | h
        · exact absurd (h.trans hy) hax
        · exact h
    · rw [erase1, if_neg hy]
      simp [ih]

theorem nodup_erase1 [DecidableEq α] (x : α) (hl : l.Nodup) : (erase1 x l).Nodup := by
  induction l with
  | nil => simpa [erase1] using hl
  | cons y ys ih =>
    rw [List.nodup_cons] at hl
    by_cases hy : y = x
    · simpa [erase1, hy] using hl.2
    · rw [erase1]
      simp only [hy, if_false]
      rw [List.nodup_cons]
      exact ⟨fun hc => hl.1 (mem_erase1 hc), ih hl.2⟩

theorem not_mem_erase1_self [DecidableEq α] (x : α) {l : List α} (hl : l.Nodup) :
    x ∉ erase1 x l := by
  induction l with
  | nil => simp [erase1]
  | cons y ys ih =>
    rw [List.nodup_cons] at hl
    by_cases hy : y = x
    · rw [erase1, if_pos hy]
      intro hx
      exact hl.1 (by rw [hy]; exact hx)
    · rw [erase1, if_neg hy]
      intro hx
      rcases List.mem_cons.mp hx with h | h
      · exact hy h.symm
      · exact ih hl.2 h

example :
    (join_document "d" "u" "s" none none "t" initState).2 =
      ⟨[("d", [("u", "s")])], [("s", ⟨"u", none, none, "t"⟩)], [("s", ["d"])]⟩ := by
  decide

example :
    (leave_document "d" "s" (join_document "d" "u" "s" none none "t" initState).2).2 =
      ⟨[], [("s", ⟨"u", none, none, "t"⟩)], []⟩ := by
  decide

example :
    (disconnect_session "s" (join_document "d" "u" "s" none none "t" initState).2) =
      ([("d", some ⟨"u", none, none, "t"⟩)], initState) := by
  decide

/-! Pointwise dynamics of removeFromRooms and removeFirstSession. -/

theorem getVal_guardDel (k c : String) (m : List (String × β)) :
    getVal c (if hasKey k m then delKey k m else m) =
      if c = k then none else getVal c m := by
  by_cases hk : hasKey k m = true
  · rw [if_pos hk]
    by_cases hc : c = k
    · rw [if_pos hc, hc, getVal_delKey_self]
    · rw [if_neg hc, getVal_delKey_ne hc]
  · rw [if_neg hk]
    by_cases hc : c = k
    · rw [if_pos hc, hc, hasKey_false_getVal (Bool.eq_false_iff.mpr hk)]
    · rw [if_neg hc]

theorem roomOfMap_removeFromRooms (s d d' : String)
    (du : List (String × List (String × String))) :
    roomOfMap d' (removeFromRooms s d du).1 =
      if d' = d then removeFirstSession s (roomOfMap d du) else roomOfMap d' du := by
  unfold removeFromRooms
  by_cases hk : hasKey d du = true
  · rw [if_pos hk]
    cases hf : (roomOfMap d du).find? (fun e => decide (e.2 = s)) with
    | none =>
      simp only [hf]
      rw [removeFirstSession, hf]
      by_cases hd : d' = d
      · rw [if_pos hd, hd]
      · rw [if_neg hd]
    | some t =>
      simp only [hf]
      rw [removeFirstSession, hf]
      by_cases he : erase1 t (roomOfMap d du) = []
      · rw [if_pos he]
        by_cases hd : d' = d
        · rw [if_pos hd, hd]
          unfold roomOfMap
          rw [getVal_delKey_self]
          exact he.symm
        · rw [if_neg hd]
          unfold roomOfMap
          rw [getVal_delKey_ne hd]
      · rw [if_neg he]
        by_cases hd : d' = d
        · rw [if_pos hd, hd]
          unfold roomOfMap
          rw [getVal_setVal_self]
          rfl
        · rw [if_neg hd]
          unfold roomOfMap
          rw [getVal_setVal_ne hd]
  · rw [if_neg hk]
    have h0 : roomOfMap d du = [] := by
      unfold roomOfMap
      rw [hasKey_false_getVal (Bool.eq_false_iff.mpr hk)]
      rfl
    by_cases hd : d' = d
    · rw [if_pos hd, hd, h0]
      rfl
    · rw [if_neg hd]

theorem removeFromRooms_flag (s d : String)
    (du : List (String × List (String × String))) :
    (removeFromRooms s d du).2 = true ↔ ∃ e ∈ roomOfMap d du, e.2 = s := by
  unfold removeFromRooms
  by_cases hk : hasKey d du = true
  · rw [if_pos hk]
    cases hf : (roomOfMap d du).find? (fun e => decide (e.2 = s)) with
    | none =>
      simp only [hf]
      rw [List.find?_eq_none] at hf
      constructor
      · intro h
        simp at h
      · rintro ⟨e, he, hes⟩
        exact absurd (decide_eq_true hes) (by simpa using hf e he)
    | some t =>
      simp only [hf]
      constructor
      · intro h
        refine ⟨t, List.mem_of_find?_eq_some hf, ?_⟩
        have := List.find?_some hf
        simpa using this
      · intro h
        trivial
  · rw [if_neg hk]
    have h0 : roomOfMap d du = [] := by
      unfold roomOfMap
      rw [hasKey_false_getVal (Bool.eq_false_iff.mpr hk)]
      rfl
    rw [h0]
    constructor
    · intro h
      exact absurd h (by simp)
    · rintro ⟨e, he, -⟩
      exact absurd he (List.not_mem_nil e)

theorem removeFirstSession_subset {e : String × String} (s : String)
    {room : List (String × String)} (h : e ∈ removeFirstSession s room) :
    e ∈ room := by
  unfold removeFirstSession at h
  cases hf : room.find? (fun e => decide (e.2 = s)) with
  | none => rw [hf] at h; exact h
  | some t => rw [hf] at h; exact mem_erase1 h

theorem removeFirstSession_mem_of_ne {e : String × String} (s : String)
    {room : List (String × String)} (he : e ∈ room) (hne : e.2 ≠ s) :
    e ∈ removeFirstSession s room := by
  unfold removeFirstSession
  cases hf : room.find? (fun e => decide (e.2 = s)) with
  | none => exact he
  | some t =>
    have hts : t.2 = s := by simpa using List.find?_some hf
    have : e ≠ t := fun hc => hne (hc ▸ hts)
    exact (mem_erase1_of_ne this).mpr he

theorem removeFirstSession_nodup (s : String) {room : List (String × String)}
    (h : room.Nodup) : (removeFirstSession s room).Nodup := by
  unfold removeFirstSession
  cases room.find? (fun e => decide (e.2 = s)) with
  | none => exact h
  | some t => exact nodup_erase1 t h

theorem removeFirstSession_no_session (s : String) {room : List (String × String)}
    (hnd : room.Nodup)
    (huniq : ∀ e₁ ∈ room, ∀ e₂ ∈ room, e₁.2 = e₂.2 → e₁ = e₂) :
    ∀ e ∈ removeFirstSession s room, e.2 ≠ s := by
  intro e he
  unfold removeFirstSession at he
  cases hf : room.find? (fun e => decide (e.2 = s)) with
  | none =>
    rw [hf] at he
    rw [List.find?_eq_none] at hf
    intro hes
    exact absurd (decide_eq_true hes) (by simpa using hf e he)
  | some t =>
    rw [hf] at he
    have hts : t.2 = s := by simpa using List.find?_some hf
    have htm : t ∈ room := List.mem_of_find?_eq_some hf
    intro hes
    have : e = t := huniq e (mem_erase1 he) t htm (hes.trans hts.symm)
    rw [this] at he
    exact not_mem_erase1_self t hnd he

/-! Pointwise dynamics of the three tracker operations. -/

theorem join_room_eq (d u s : String) (un ue : Option String) (now : String)
    (st : PState) (d' : String) :
    roomOf d' (join_document d u s un ue now st).2 =
      if d' = d then addElem (u, s) (roomOf d st) else roomOf d' st := by
  unfold join_document roomOf roomOfMap
  by_cases hd : d' = d
  · rw [if_pos hd, hd]
    simp only
    rw [getVal_setVal_self]
    rfl
  · rw [if_neg hd]
    simp only
    rw [getVal_setVal_ne hd]

theorem join_docs_eq (d u s : String) (un ue : Option String) (now : String)
    (st : PState) (c : String) :
    docsOf c (join_document d u s un ue now st).2 =
      if c = s then addElem d (docsOf s st) else docsOf c st := by
  unfold join_document docsOf
  by_cases hc : c = s
  · rw [if_pos hc, hc]
    simp only
    rw [getVal_setVal_self]
    rfl
  · rw [if_neg hc]
    simp only
    rw [getVal_setVal_ne hc]

theorem join_info_eq (d u s : String) (un ue : Option String) (now : String)
    (st : PState) (c : String) :
    getVal c (join_document d u s un ue now st).2.session_info =
      if c = s then some ⟨u, un, ue, now⟩ else getVal c st.session_info := by
  unfold join_document
  by_cases hc : c = s
  · rw [if_pos hc, hc]
    simp only
    rw [getVal_setVal_self]
  · rw [if_neg hc]
    simp only
    rw [getVal_setVal_ne hc]

theorem leave_room_eq (d s : String) (st : PState) (d' : String) :
    roomOf d' (leave_document d s st).2 =
      if d' = d then removeFirstSession s (roomOf d st) else roomOf d' st := by
  unfold leave_document roomOf
  simp only
  exact roomOfMap_removeFromRooms s d d' st.document_users

theorem leave_docs_eq (d s : String) (st : PState) (c : String) :
    docsOf c (leave_document d s st).2 =
      if c = s then erase1 d (docsOf s st) else docsOf c st := by
  unfold leave_document docsOf
  simp only
  by_cases hk : hasKey s st.session_documents = true
  · rw [if_pos hk]
    by_cases he : erase1 d ((getVal s st.session_documents).getD []) = []
    · rw [if_pos he]
      by_cases hc : c = s
      · rw [if_pos hc, hc, getVal_delKey_self]
        exact he.symm
      · rw [if_neg hc, getVal_delKey_ne hc]
    · rw [if_neg he]
      by_cases hc : c = s
      · rw [if_pos hc, hc, getVal_setVal_self]
        rfl
      · rw [if_neg hc, getVal_setVal_ne hc]
  · rw [if_neg hk]
    by_cases hc : c = s
    · rw [if_pos hc, hc, hasKey_false_getVal (Bool.eq_false_iff.mpr hk)]
      rfl
    · rw [if_neg hc]

theorem leave_info_eq (d s : String) (st : PState) :
    (leave_document d s st).2.session_info = st.session_info := rfl

theorem leave_fst_eq (d s : String) (st : PState) :
    (leave_document d s st).1 = getVal s st.session_info := rfl

theorem discStep_rooms (s : String) (ui : Option SessionInfo)
    (acc : List (String × Option SessionInfo) × List (String × List (String × String)))
    (d d' : String) :
    roomOfMap d' (discStep s ui acc d).2 =
      if d' = d then removeFirstSession s (roomOfMap d acc.2)
      else roomOfMap d' acc.2 := by
  unfold discStep
  simp only
  exact roomOfMap_removeFromRooms s d d' acc.2

theorem foldDisc_rooms (s : String) (ui : Option SessionInfo) :
    ∀ (docs : List String)
      (acc : List (String × Option SessionInfo) × List (String × List (String × String))),
      docs.Nodup → ∀ d',
      roomOfMap d' (docs.foldl (discStep s ui) acc).2 =
        if d' ∈ docs then removeFirstSession s (roomOfMap d' acc.2)
        else roomOfMap d' acc.2 := by
  intro docs
  induction docs with
  | nil =>
    intro acc hnd d'
    simp
  | cons d rest ih =>
    intro acc hnd d'
    rw [List.nodup_cons] at hnd
    rw [List.foldl_cons]
    rw [ih (discStep s ui acc d) hnd.2 d']
    by_cases hd : d' = d
    · have hrest : d' ∉ rest := by rw [hd]; exact hnd.1
      rw [if_neg hrest, if_pos (by rw [hd]; exact List.mem_cons_self d rest)]
      rw [discStep_rooms, if_pos hd, hd]
    · rw [discStep_rooms, if_neg hd]
      by_cases hr : d' ∈ rest
      · rw [if_pos hr, if_pos (List.mem_cons_of_mem d hr)]
      · rw [if_neg hr, if_neg (by simp [hd, hr])]

theorem foldDisc_left (s : String) (ui : Option SessionInfo) :
    ∀ (docs : List String)
      (acc : List (String × Option SessionInfo) × List (String × List (String × String))),
      docs.Nodup →
      (∀ d ∈ docs, ∃ e ∈ roomOfMap d acc.2, e.2 = s) →
      (docs.foldl (discStep s ui) acc).1 = acc.1 ++ docs.map (fun d => (d, ui)) := by
  intro docs
  induction docs with
  | nil =>
    intro acc hnd hex
    simp
  | cons d rest ih =>
    intro acc hnd hex
    rw [List.nodup_cons] at hnd
    rw [List.foldl_cons]
    have hflag : (removeFromRooms s d acc.2).2 = true :=
      (removeFromRooms_flag s d acc.2).mpr (hex d (List.mem_cons_self d rest))
    have hstep : discStep s ui acc d = (acc.1 ++ [(d, ui)], (removeFromRooms s d acc.2).1) := by
      unfold discStep
      simp only
      rw [hflag]
      simp
    rw [hstep]
    rw [ih _ hnd.2 ?_]
    · simp
    · intro d2 hd2
      have hne : d2 ≠ d := fun hc => hnd.1 (hc ▸ hd2)
      simp only
      rw [roomOfMap_removeFromRooms, if_neg hne]
      exact hex d2 (List.mem_cons_of_mem d hd2)

theorem disc_room_eq (s : String) (st : PState) (hnd : (docsOf s st).Nodup)
    (d' : String) :
    roomOf d' (disconnect_session s st).2 =
      if d' ∈ docsOf s st then removeFirstSession s (roomOf d' st)
      else roomOf d' st := by
  unfold disconnect_session roomOf
  simp only
  exact foldDisc_rooms s (getVal s st.session_info) (docsOf s st)
    ([], st.document_users) hnd d'

theorem disc_left_eq (s : String) (st : PState) (hnd : (docsOf s st).Nodup)
    (hex : ∀ d ∈ docsOf s st, ∃ e ∈ roomOf d st, e.2 = s) :
    (disconnect_session s st).1 =
      (docsOf s st).map (fun d => (d, getVal s st.session_info)) := by
  unfold disconnect_session
  simp only
  rw [foldDisc_left s (getVal s st.session_info) (docsOf s st)
    ([], st.document_users) hnd hex]
  simp

theorem disc_sd_eq (s : String) (st : PState) (c : String) :
    getVal c (disconnect_session s st).2.session_documents =
      if c = s then none else getVal c st.session_documents := by
  unfold disconnect_session
  simp only
  rw [getVal_guardDel]

theorem disc_si_eq (s : String) (st : PState) (c : String) :
    getVal c (disconnect_session s st).2.session_info =
      if c = s then none else getVal c st.session_info := by
  unfold disconnect_session
  simp only
  rw [getVal_guardDel]

theorem disc_docs_eq (s : String) (st : PState) (c : String) :
    docsOf c (disconnect_session s st).2 =
      if c = s then [] else docsOf c st := by
  unfold docsOf
  rw [disc_sd_eq]
  by_cases hc : c = s
  · rw [if_pos hc, if_pos hc]
    rfl
  · rw [if_neg hc, if_neg hc]

theorem pair_eq_of {a b : String} {e : String × String}
    (h1 : e.1 = a) (h2 : e.2 = b) : e = (a, b) := by
  obtain ⟨x, y⟩ := e
  simp only at h1 h2
  rw [h1, h2]

theorem roomOf_init (d : String) : roomOf d initState = [] := rfl

theorem docsOf_init (c : String) : docsOf c initState = [] := rfl

theorem inv_init : PresenceInv initState := by
  refine ⟨?_, ?_, ?_, ?_⟩
  · intro d; rw [roomOf_init]; exact List.nodup_nil
  · intro c; rw [docsOf_init]; exact List.nodup_nil
  · intro d e₁ he₁
    rw [roomOf_init] at he₁
    exact absurd he₁ (List.not_mem_nil e₁)
  · intro c d
    rw [roomOf_init, docsOf_init]
    constructor
    · intro h
      exact absurd h (List.not_mem_nil d)
    · rintro ⟨e, he, -⟩
      exact absurd he (List.not_mem_nil e)

theorem inv_join (d u s : String) (un ue : Option String) (now : String)
    {st : PState} (hinv : PresenceInv st) (hsafe : JoinSafe d u s st) :
    PresenceInv (join_document d u s un ue now st).2 := by
  obtain ⟨hrn, hdn, hru, hag⟩ := hinv
  refine ⟨?_, ?_, ?_, ?_⟩
  · intro d'
    rw [join_room_eq]
    by_cases hd : d' = d
    · rw [if_pos hd]; exact nodup_addElem _ (hrn d)
    · rw [if_neg hd]; exact hrn d'
  · intro c
    rw [join_docs_eq]
    by_cases hc : c = s
    · rw [if_pos hc]; exact nodup_addElem _ (hdn s)
    · rw [if_neg hc]; exact hdn c
  · intro d' e₁ he₁ e₂ he₂ hss
    rw [join_room_eq] at he₁ he₂
    by_cases hd : d' = d
    · rw [if_pos hd] at he₁ he₂
      rcases (mem_addElem _ _ _).mp he₁ with h1 | h1 <;>
        rcases (mem_addElem _ _ _).mp he₂ with h2 | h2
      · rw [h1, h2]
      · rw [h1] at hss ⊢
        have h2s : e₂.2 = s := hss.symm
        exact (pair_eq_of (hsafe e₂ h2 h2s) h2s).symm
      · rw [h2] at hss ⊢
        have h1s : e₁.2 = s := hss
        exact pair_eq_of (hsafe e₁ h1 h1s) h1s
      · exact hru d e₁ h1 e₂ h2 hss
    · rw [if_neg hd] at he₁ he₂
      exact hru d' e₁ he₁ e₂ he₂ hss
  · intro c d'
    rw [join_docs_eq, join_room_eq]
    by_cases hc : c = s
    · subst hc
      rw [if_pos rfl]
      by_cases hd : d' = d
      · subst hd
        rw [if_pos rfl]
        constructor
        · intro _
          exact ⟨(u, c), (mem_addElem _ _ _).mpr (Or.inl rfl), rfl⟩
        · intro _
          exact (mem_addElem _ _ _).mpr (Or.inl rfl)
      · rw [if_neg hd, mem_addElem]
        constructor
        · rintro (h | h)
          · exact absurd h hd
          · exact (hag c d').mp h
        · intro h
          exact Or.inr ((hag c d').mpr h)
    · rw [if_neg hc]
      by_cases hd : d' = d
      · subst hd
        rw [if_pos rfl]
        constructor
        · intro h
          obtain ⟨e, he, hes⟩ := (hag c d').mp h
          exact ⟨e, (mem_addElem _ _ _).mpr (Or.inr he), hes⟩
        · rintro ⟨e, he, hes⟩
          rcases (mem_addElem _ _ _).mp he with h1 | h1
          · rw [h1] at hes
            exact absurd hes.symm hc
          · exact (hag c d').mpr ⟨e, h1, hes⟩
      · rw [if_neg hd]
        exact hag c d'

theorem inv_leave (d s : String) {st : PState} (hinv : PresenceInv st) :
    PresenceInv (leave_document d s st).2 := by
  obtain ⟨hrn, hdn, hru, hag⟩ := hinv
  refine ⟨?_, ?_, ?_, ?_⟩
  · intro d'
    rw [leave_room_eq]
    by_cases hd : d' = d
    · rw [if_pos hd]; exact removeFirstSession_nodup s (hrn d)
    · rw [if_neg hd]; exact hrn d'
  · intro c
    rw [leave_docs_eq]
    by_cases hc : c = s
    · rw [if_pos hc]; exact nodup_erase1 d (hdn s)
    · rw [if_neg hc]; exact hdn c
  · intro d' e₁ he₁ e₂ he₂ hss
    rw [leave_room_eq] at he₁ he₂
    by_cases hd : d' = d
    · rw [if_pos hd] at he₁ he₂
      exact hru d e₁ (removeFirstSession_subset s he₁) e₂
        (removeFirstSession_subset s he₂) hss
    · rw [if_neg hd] at he₁ he₂
      exact hru d' e₁ he₁ e₂ he₂ hss
  · intro c d'
    rw [leave_docs_eq, leave_room_eq]
    by_cases hc : c = s
    · subst hc
      rw [if_pos rfl]
      by_cases hd : d' = d
      · subst hd
        rw [if_pos rfl]
        constructor
        · intro h
          exact absurd h (not_mem_erase1_self d' (hdn c))
        · rintro ⟨e, he, hes⟩
          exact absurd hes (removeFirstSession_no_session c (hrn d') (hru d') e he)
      · rw [if_neg hd, mem_erase1_of_ne hd]
        exact hag c d'
    · rw [if_neg hc]
      by_cases hd : d' = d
      · subst hd
        rw [if_pos rfl]
        constructor
        · intro h
          obtain ⟨e, he, hes⟩ := (hag c d').mp h
          have hnes : e.2 ≠ s := fun hh => hc (hes.symm.trans hh)
          exact ⟨e, removeFirstSession_mem_of_ne s he hnes, hes⟩
        · rintro ⟨e, he, hes⟩
          exact (hag c d').mpr ⟨e, removeFirstSession_subset s he, hes⟩
      · rw [if_neg hd]
        exact hag c d'

theorem inv_disconnect (s : String) {st : PState} (hinv : PresenceInv st) :
    PresenceInv (disconnect_session s st).2 := by
  obtain ⟨hrn, hdn, hru, hag⟩ := hinv
  refine ⟨?_, ?_, ?_, ?_⟩
  · intro d'
    rw [disc_room_eq s st (hdn s)]
    by_cases hd : d' ∈ docsOf s st
    · rw [if_pos hd]; exact removeFirstSession_nodup s (hrn d')
    · rw [if_neg hd]; exact hrn d'
  · intro c
    rw [disc_docs_eq]
    by_cases hc : c = s
    · rw [if_pos hc]; exact List.nodup_nil
    · rw [if_neg hc]; exact hdn c
  · intro d' e₁ he₁ e₂ he₂ hss
    rw [disc_room_eq s st (hdn s)] at he₁ he₂
    by_cases hd : d' ∈ docsOf s st
    · rw [if_pos hd] at he₁ he₂
      exact hru d' e₁ (removeFirstSession_subset s he₁) e₂
        (removeFirstSession_subset s he₂) hss
    · rw [if_neg hd] at he₁ he₂
      exact hru d' e₁ he₁ e₂ he₂ hss
  · intro c d'
    rw [disc_docs_eq, disc_room_eq s st (hdn s)]
    by_cases hc : c = s
    · subst hc
      rw [if_pos rfl]
      constructor
      · intro h
        exact absurd h (List.not_mem_nil d')
      · rintro ⟨e, he, hes⟩
        by_cases hd : d' ∈ docsOf c st
        · rw [if_pos hd] at he
          exact absurd hes (removeFirstSession_no_session c (hrn d') (hru d') e he)
        · rw [if_neg hd] at he
          exact absurd ((hag c d').mpr ⟨e, he, hes⟩) hd
    · rw [if_neg hc]
      by_cases hd : d' ∈ docsOf s st
      · rw [if_pos hd]
        constructor
        · intro h
          obtain ⟨e, he, hes⟩ := (hag c d').mp h
          have hnes : e.2 ≠ s := fun hh => hc (hes.symm.trans hh)
          exact ⟨e, removeFirstSession_mem_of_ne s he hnes, hes⟩
        · rintro ⟨e, he, hes⟩
          exact (hag c d').mpr ⟨e, removeFirstSession_subset s he, hes⟩
      · rw [if_neg hd]
        exact hag c d'

theorem inv_reachableSafe {st : PState} (h : ReachableSafe st) : PresenceInv st := by
  induction h with
  | init => exact inv_init
  | join d u s un ue now _ hsafe ih => exact inv_join d u s un ue now ih hsafe
  | leave d s _ ih => exact inv_leave d s ih
  | disconnect s _ ih => exact inv_disconnect s ih

/-- Explicit record form of the state after join_document. -/
theorem join_document_state (d u s : String) (un ue : Option String)
    (now : String) (st : PState) :
    (join_document d u s un ue now st).2 =
      ⟨setVal d (addElem (u, s) (roomOf d st)) st.document_users,
       setVal s ⟨u, un, ue, now⟩ st.session_info,
       setVal s (addElem d (docsOf s st)) st.session_documents⟩ := rfl

theorem join_document_pair_decomp (d u s : String) (un ue : Option String)
    (now : String) (st : PState) :
    join_document d u s un ue now st =
      (getDocumentUsersEx (join_document d u s un ue now st).2 d (some s),
       (join_document d u s un ue now st).2) := rfl

theorem leave_document_du (d s : String) (st : PState) :
    (leave_document d s st).2.document_users =
      (removeFromRooms s d st.document_users).1 := rfl

theorem disconnect_session_du (s : String) (st : PState) :
    (disconnect_session s st).2.document_users =
      ((docsOf s st).foldl (discStep s (getVal s st.session_info))
        ([], st.document_users)).2 := rfl

theorem roomsNonempty_removeFromRooms (s d : String)
    {du : List (String × List (String × String))}
    (h : ∀ q ∈ du, q.2 ≠ []) :
    ∀ q ∈ (removeFromRooms s d du).1, q.2 ≠ [] := by
  intro q hq
  unfold removeFromRooms at hq
  by_cases hk : hasKey d du = true
  · rw [if_pos hk] at hq
    cases hf : (roomOfMap d du).find? (fun e => decide (e.2 = s)) with
    | none =>
      simp only [hf] at hq
      exact h q hq
    | some t =>
      simp only [hf] at hq
      by_cases he : erase1 t (roomOfMap d du) = []
      · rw [if_pos he] at hq
        exact h q (mem_delKey hq)
      · rw [if_neg he] at hq
        rcases mem_setVal hq with h1 | h1
        · rw [h1]
          exact he
        · exact h q h1
  · rw [if_neg hk] at hq
    exact h q hq

theorem roomsNonempty_join (d u s : String) (un ue : Option String)
    (now : String) {st : PState} (h : RoomsNonempty st) :
    RoomsNonempty (join_document d u s un ue now st).2 := by
  intro q hq
  rw [join_document_state] at hq
  simp only at hq
  rcases mem_setVal hq with h1 | h1
  · rw [h1]
    exact addElem_ne_nil _ _
  · exact h q h1

theorem roomsNonempty_leave (d s : String) {st : PState} (h : RoomsNonempty st) :
    RoomsNonempty (leave_document d s st).2 := by
  intro q hq
  rw [leave_document_du] at hq
  exact roomsNonempty_removeFromRooms s d h q hq

theorem roomsNonempty_foldDisc (s : String) (ui : Option SessionInfo) :
    ∀ (docs : List String)
      (acc : List (String × Option SessionInfo) × List (String × List (String × String))),
      (∀ q ∈ acc.2, q.2 ≠ []) →
      ∀ q ∈ (docs.foldl (discStep s ui) acc).2, q.2 ≠ [] := by
  intro docs
  induction docs with
  | nil =>
    intro acc h
    exact h
  | cons d rest ih =>
    intro acc h
    rw [List.foldl_cons]
    exact ih _ (fun q hq => roomsNonempty_removeFromRooms s d h q hq)

theorem roomsNonempty_disconnect (s : String) {st : PState} (h : RoomsNonempty st) :
    RoomsNonempty (disconnect_session s st).2 := by
  intro q hq
  rw [disconnect_session_du] at hq
  exact roomsNonempty_foldDisc s (getVal s st.session_info) (docsOf s st)
    ([], st.document_users) h q hq

theorem getVal_eq_none_of_no_key {k : String} {m : List (String × β)}
    (h : ∀ q ∈ m, q.1 ≠ k) : getVal k m = none := by
  induction m with
  | nil => rfl
  | cons p ps ih =>
    rw [getVal, if_neg (h p (List.mem_cons_self p ps))]
    exact ih (fun q hq => h q (List.mem_cons_of_mem p hq))

theorem get_document_users_of_no_room {st : PState} {d : String}
    (h : roomOf d st = []) : get_document_users st d = [] := by
  unfold get_document_users getDocumentUsersEx
  rw [h]
  rfl

/-! Membership in the lists produced by _get_document_users. -/

theorem viewOf_session_id (si : List (String × SessionInfo)) (e : String × String) :
    (viewOf si e).session_id = e.2 := by
  unfold viewOf
  cases getVal e.2 si <;> rfl

theorem viewOf_user_id (si : List (String × SessionInfo)) (e : String × String) :
    (viewOf si e).user_id = e.1 := by
  unfold viewOf
  cases getVal e.2 si <;> rfl

theorem mem_getDocumentUsersEx {v : UserView} {st : PState} {d : String}
    {ex : Option String} :
    v ∈ getDocumentUsersEx st d ex ↔
      ∃ e ∈ roomOf d st, skipEntry ex e.2 = false ∧ v = viewOf st.session_info e := by
  unfold getDocumentUsersEx
  rw [List.mem_filterMap]
  constructor
  · rintro ⟨e, he, hfe⟩
    by_cases hskip : skipEntry ex e.2 = true
    · rw [if_pos hskip] at hfe
      exact absurd hfe (by simp)
    · rw [if_neg hskip] at hfe
      refine ⟨e, he, Bool.eq_false_iff.mpr hskip, ?_⟩
      exact (Option.some.injEq _ _ ▸ hfe).symm
  · rintro ⟨e, he, hskip, hv⟩
    refine ⟨e, he, ?_⟩
    rw [hskip]
    simp [hv]

theorem stJoin1_reachableSafe : ReachableSafe stJoin1 :=
  ReachableSafe.join "d" "u" "s" none none "t" ReachableSafe.init
    (fun e he => absurd he (List.not_mem_nil e))

theorem stTwoUsers_reachable : Reachable stTwoUsers :=
  Reachable.join "d" "u2" "s" none none "t2"
    (Reachable.join "d" "u1" "s" none none "t1" Reachable.init)

/-- C1 (amended): in every state reachable when a connection never re-joins a
document under a different user id, the reverse index and room membership
agree — a document lies in the reverse-index set of a connection exactly when
the room of that document holds a presence tuple of that connection; reachability is
closed under join, leave and disconnectAll, so all three operations preserve
the agreement. -/
theorem c1_reverse_index_agreement {st : PState} (h : ReachableSafe st) :
    ∀ c d, d ∈ docsOf c st ↔ ∃ e ∈ roomOf d st, e.2 = c :=
  (inv_reachableSafe h).2.2.2

/-- C1 witness: the agreement instantiated in a concrete reachable state. -/
theorem c1_reverse_index_agreement_witness :
    "d" ∈ docsOf "s" stJoin1 ↔ ∃ e ∈ roomOf "d" stJoin1, e.2 = "s" :=
  c1_reverse_index_agreement stJoin1_reachableSafe "s" "d"

/-- C1 counterexample: after join(d, u1, s), join(d, u2, s), leave(d, s) — a
state reachable by tracker operations from a fresh tracker — the room of d
still holds a tuple of connection s while the reverse index of s no longer
lists d, so the stated agreement fails in a reachable state. -/
theorem c1_reverse_index_agreement_cex :
    Reachable (leave_document "d" "s" stTwoUsers).2 ∧
    (∃ e ∈ roomOf "d" (leave_document "d" "s" stTwoUsers).2, e.2 = "s") ∧
    "d" ∉ docsOf "s" (leave_document "d" "s" stTwoUsers).2 := by
  refine ⟨Reachable.leave "d" "s" stTwoUsers_reachable, ?_, ?_⟩
  · decide
  · decide

/-- C2 (amended): re-joining with the same (documentId, userId, connectionId)
leaves every room membership exactly as after the first join, whatever the
optional display fields or timestamp of the second call; with two different
user ids the second join adds a second tuple instead (see the counterexample). -/
theorem c2_join_idempotent (d u s : String) (un ue un2 ue2 : Option String)
    (now now2 : String) (st : PState) (d' : String) :
    roomOf d' (join_document d u s un2 ue2 now2
        (join_document d u s un ue now st).2).2 =
      roomOf d' (join_document d u s un ue now st).2 := by
  rw [join_room_eq]
  by_cases hd : d' = d
  · rw [if_pos hd, join_room_eq, if_pos (rfl : d = d), addElem_idem,
      join_room_eq, if_pos hd]
  · rw [if_neg hd]

/-- C2 counterexample: connection s joins document d under user id u1 and then
again under user id u2; the room of d now holds two tuples of the one
connection s, so membership differs from the single join and a connection id
appears in two presence entries of one room, in a reachable state. -/
theorem c2_join_idempotent_cex :
    Reachable stTwoUsers ∧
    roomOf "d" (join_document "d" "u1" "s" none none "t1" initState).2 =
      [("u1", "s")] ∧
    roomOf "d" stTwoUsers = [("u1", "s"), ("u2", "s")] := by
  refine ⟨stTwoUsers_reachable, ?_, ?_⟩
  · decide
  · decide

/-- C5 (confirmed): in every reachable tracker state no document key maps to an
empty member set, and a document absent from the index yields an empty
membersOf list — so when the last member of a room leaves, the room is gone and
subsequent queries return zero entries. -/
theorem c5_room_garbage_collection {st : PState} (h : Reachable st) :
    RoomsNonempty st ∧
    ∀ d, (∀ q ∈ st.document_users, q.1 ≠ d) → get_document_users st d = [] := by
  constructor
  · induction h with
    | init =>
      intro q hq
      exact absurd hq (List.not_mem_nil q)
    | join d u s un ue now _ ih => exact roomsNonempty_join d u s un ue now ih
    | leave d s _ ih => exact roomsNonempty_leave d s ih
    | disconnect s _ ih => exact roomsNonempty_disconnect s ih
  · intro d hd
    apply get_document_users_of_no_room
    unfold roomOf roomOfMap
    rw [getVal_eq_none_of_no_key hd]
    rfl

/-- C5 witness: instantiated in the state where the last member of d just left. -/
theorem c5_room_garbage_collection_witness :
    RoomsNonempty (leave_document "d" "s" stJoin1).2 ∧
    ∀ d, (∀ q ∈ (leave_document "d" "s" stJoin1).2.document_users, q.1 ≠ d) →
      get_document_users (leave_document "d" "s" stJoin1).2 d = [] :=
  c5_room_garbage_collection
    (Reachable.leave "d" "s"
      (Reachable.join "d" "u" "s" none none "t" Reachable.init))

/-- C4 (amended): under safe reachability (no re-join of a document under a
different user id), disconnectAll on connection s returns one pair per
document of the reverse-index set of s (in particular exactly N pairs for N
joined documents, with exactly those document ids), afterwards membersOf of
each such document holds no entry of s, and the reverse-index set of s is
empty. -/
theorem c4_disconnect_cleanup {st : PState} (h : ReachableSafe st) (s : String) :
    ((disconnect_session s st).1.map Prod.fst = docsOf s st) ∧
    (∀ d ∈ docsOf s st, ∀ v ∈ get_document_users (disconnect_session s st).2 d,
        v.session_id ≠ s) ∧
    docsOf s (disconnect_session s st).2 = [] := by
  obtain ⟨hrn, hdn, hru, hag⟩ := inv_reachableSafe h
  refine ⟨?_, ?_, ?_⟩
  · rw [disc_left_eq s st (hdn s) (fun d hd => (hag s d).mp hd)]
    induction docsOf s st with
    | nil => rfl
    | cons a t ih => simp_all
  · intro d hd v hv
    unfold get_document_users at hv
    rcases mem_getDocumentUsersEx.mp hv with ⟨e, he, -, hveq⟩
    rw [hveq, viewOf_session_id]
    rw [disc_room_eq s st (hdn s), if_pos hd] at he
    exact removeFirstSession_no_session s (hrn d) (hru d) e he
  · rw [disc_docs_eq, if_pos rfl]

/-- C4 witness: the cleanup properties instantiated after one join. -/
theorem c4_disconnect_cleanup_witness :
    ((disconnect_session "s" stJoin1).1.map Prod.fst = docsOf "s" stJoin1) ∧
    (∀ d ∈ docsOf "s" stJoin1,
      ∀ v ∈ get_document_users (disconnect_session "s" stJoin1).2 d,
        v.session_id ≠ "s") ∧
    docsOf "s" (disconnect_session "s" stJoin1).2 = [] :=
  c4_disconnect_cleanup stJoin1_reachableSafe "s"

/-- C4 counterexample: connection s joined exactly one distinct document d
(via two joins under different user ids, a reachable history); disconnectAll
removes only the first matching tuple, so membersOf d afterwards still
contains an entry of connection s. -/
theorem c4_disconnect_cleanup_cex :
    Reachable stTwoUsers ∧ docsOf "s" stTwoUsers = ["d"] ∧
    (∃ v ∈ get_document_users (disconnect_session "s" stTwoUsers).2 "d",
      v.session_id = "s") := by
  refine ⟨stTwoUsers_reachable, ?_, ?_⟩
  · decide
  · decide

/-- C3 (code_bug): after join(d, u, s) then leave(d, s), connection s is no
member of d (membersOf is empty), yet a second leave(d, s) still returns the
stored metadata instead of indicating a no-op — contradicting the docstring of
leave_document ("User info dict if user was in document, None otherwise") —
and the router consequently emits user_left to the room although no member was
removed. -/
theorem c3_leave_noop_bug :
    get_document_users (leave_document "d" "s" stJoin1).2 "d" = [] ∧
    (leave_document "d" "s" (leave_document "d" "s" stJoin1).2).1 =
      some ⟨"u", none, none, "t"⟩ ∧
    (handle_leave_document (some "d") "s" (leave_document "d" "s" stJoin1).2).2 =
      [⟨Target.room "document:d" true, "user_left",
        Payload.userLeft "d" (some "u") none "s"⟩,
       ⟨Target.caller, "document_left", Payload.documentLeft "d"⟩] := by
  refine ⟨?_, ?_, ?_⟩
  · decide
  · decide
  · decide

theorem skipEntry_some_ne {s : String} (hs : s ≠ "") (x : String) :
    skipEntry (some s) x = decide (x = s) := by
  show (decide (s ≠ "") && decide (x = s)) = decide (x = s)
  rw [decide_eq_true hs]
  simp

/-- C7 (amended): for every join with a nonempty connection id, the returned
list is exactly the other current members of the room — no returned entry
carries the joining connection id, every returned entry corresponds to a room
member with a different connection id, and every such member yields a returned
entry. With the empty connection id the exclusion is skipped (see the
counterexample). -/
theorem c7_join_returns_others (d u s : String) (un ue : Option String)
    (now : String) (st : PState) (hs : s ≠ "") :
    (∀ v ∈ (join_document d u s un ue now st).1, v.session_id ≠ s) ∧
    (∀ v ∈ (join_document d u s un ue now st).1,
      ∃ e ∈ roomOf d (join_document d u s un ue now st).2,
        v.user_id = e.1 ∧ v.session_id = e.2 ∧ e.2 ≠ s) ∧
    (∀ e ∈ roomOf d (join_document d u s un ue now st).2, e.2 ≠ s →
      ∃ v ∈ (join_document d u s un ue now st).1,
        v.user_id = e.1 ∧ v.session_id = e.2) := by
  rw [join_document_pair_decomp]
  refine ⟨?_, ?_, ?_⟩
  · intro v hv
    rcases mem_getDocumentUsersEx.mp hv with ⟨e, he, hskip, hveq⟩
    rw [skipEntry_some_ne hs] at hskip
    rw [hveq, viewOf_session_id]
    exact of_decide_eq_false hskip
  · intro v hv
    rcases mem_getDocumentUsersEx.mp hv with ⟨e, he, hskip, hveq⟩
    rw [skipEntry_some_ne hs] at hskip
    exact ⟨e, he, by rw [hveq, viewOf_user_id], by rw [hveq, viewOf_session_id],
      of_decide_eq_false hskip⟩
  · intro e he hes
    refine ⟨viewOf (join_document d u s un ue now st).2.session_info e,
      mem_getDocumentUsersEx.mpr ⟨e, he, ?_, rfl⟩,
      viewOf_user_id _ e, viewOf_session_id _ e⟩
    rw [skipEntry_some_ne hs]
    exact decide_eq_false hes

/-- C7 witness: a second connection joining sees exactly the first one and not
itself. -/
theorem c7_join_returns_others_witness :
    (∀ v ∈ (join_document "d" "u2" "s2" none none "t2" stJoin1).1,
      v.session_id ≠ "s2") ∧
    (∀ v ∈ (join_document "d" "u2" "s2" none none "t2" stJoin1).1,
      ∃ e ∈ roomOf "d" (join_document "d" "u2" "s2" none none "t2" stJoin1).2,
        v.user_id = e.1 ∧ v.session_id = e.2 ∧ e.2 ≠ "s2") ∧
    (∀ e ∈ roomOf "d" (join_document "d" "u2" "s2" none none "t2" stJoin1).2,
      e.2 ≠ "s2" →
      ∃ v ∈ (join_document "d" "u2" "s2" none none "t2" stJoin1).1,
        v.user_id = e.1 ∧ v.session_id = e.2) :=
  c7_join_returns_others "d" "u2" "s2" none none "t2" stJoin1 (by decide)

/-- C7 counterexample: joining with the empty connection id returns a list
containing the entry just added, because the Python truthiness test
`if exclude_session and ...` skips nothing for the empty string. -/
theorem c7_join_returns_others_cex :
    (join_document "d" "u" "" none none "t" initState).1 =
      [⟨"u", "", none, none, some "t"⟩] := by
  decide

/-- C8 (confirmed): a join_document event whose document_id or user_id is
missing (or empty, which Python truthiness also treats as missing) produces
exactly one error event, addressed to the calling connection only, and leaves
the presence state and the registry untouched. -/
theorem c8_malformed_join_isolated (data : JoinData) (sid now : String)
    (st : PState) (reg : Registry)
    (h : truthy data.document_id = false ∨ truthy data.user_id = false) :
    handle_join_document data sid now st reg =
      (st, reg, [⟨Target.caller, "error",
        Payload.error "document_id and user_id are required"⟩]) ∧
    ∀ ev ∈ (handle_join_document data sid now st reg).2.2,
      ev.target = Target.caller := by
  have heq : handle_join_document data sid now st reg =
      (st, reg, [⟨Target.caller, "error",
        Payload.error "document_id and user_id are required"⟩]) := by
    unfold handle_join_document
    rcases h with h | h
    · rw [if_pos (by simp [h])]
    · rw [if_pos (by simp [h])]
  refine ⟨heq, ?_⟩
  intro ev hev
  rw [heq] at hev
  simp only [List.mem_singleton] at hev
  rw [hev]

/-- C8 witness: a join event with no document id, in a nonempty state. -/
theorem c8_malformed_join_isolated_witness :
    handle_join_document ⟨none, some "u", none, none⟩ "sid" "t" stJoin1
        [("u", ["sid"])] =
      (stJoin1, [("u", ["sid"])], [⟨Target.caller, "error",
        Payload.error "document_id and user_id are required"⟩]) ∧
    ∀ ev ∈ (handle_join_document ⟨none, some "u", none, none⟩ "sid" "t" stJoin1
        [("u", ["sid"])]).2.2, ev.target = Target.caller :=
  c8_malformed_join_isolated ⟨none, some "u", none, none⟩ "sid" "t" stJoin1
    [("u", ["sid"])] (Or.inl (by decide))

/-! Registry dynamics. -/

theorem sessions_register_self (u s : String) (reg : Registry) :
    get_user_sessions u (register_user_session u s reg) =
      addElem s (get_user_sessions u reg) := by
  unfold get_user_sessions register_user_session
  rw [getVal_setVal_self]
  rfl

theorem sessions_unregister_self (u s : String) (reg : Registry) :
    get_user_sessions u (unregister_user_session u s reg) =
      erase1 s (get_user_sessions u reg) := by
  unfold get_user_sessions unregister_user_session
  by_cases hk : hasKey u reg = true
  · rw [if_pos hk]
    by_cases he : erase1 s ((getVal u reg).getD []) = []
    · rw [if_pos he, getVal_delKey_self]
      exact he.symm
    · rw [if_neg he, getVal_setVal_self]
      rfl
  · rw [if_neg hk, hasKey_false_getVal (Bool.eq_false_iff.mpr hk)]
    rfl

/-- C9 (confirmed): registering user u under two connections a and b and then
dispatching a notification emits it exactly to a and b; after unregister(u, a)
a dispatch emits it only to b; and a dispatch for a user with zero registered
connections emits nothing. -/
theorem c9_notification_fanout (u a b p : String) (hab : a ≠ b) :
    send_notification_to_user u p (register_user_session u b
        (register_user_session u a [])) =
      [⟨Target.session a, "notification", Payload.notificationData p⟩,
       ⟨Target.session b, "notification", Payload.notificationData p⟩] ∧
    send_notification_to_user u p (unregister_user_session u a
        (register_user_session u b (register_user_session u a []))) =
      [⟨Target.session b, "notification", Payload.notificationData p⟩] ∧
    ∀ (reg : Registry) (v : String), get_user_sessions v reg = [] →
      send_notification_to_user v p reg = [] := by
  have hs1 : get_user_sessions u (register_user_session u a []) = [a] := by
    rw [sessions_register_self]
    have h0 : get_user_sessions u ([] : Registry) = [] := rfl
    rw [h0]
    unfold addElem
    rw [if_neg (List.not_mem_nil a)]
    rfl
  have hs2 : get_user_sessions u
      (register_user_session u b (register_user_session u a [])) = [a, b] := by
    rw [sessions_register_self, hs1]
    unfold addElem
    rw [if_neg (by rw [List.mem_singleton]; exact fun h => hab h.symm)]
    rfl
  have hs3 : get_user_sessions u (unregister_user_session u a
      (register_user_session u b (register_user_session u a []))) = [b] := by
    rw [sessions_unregister_self, hs2, erase1, if_pos rfl]
  refine ⟨?_, ?_, ?_⟩
  · show (get_user_sessions u (register_user_session u b
        (register_user_session u a []))).map _ = _
    rw [hs2]
    rfl
  · show (get_user_sessions u (unregister_user_session u a
        (register_user_session u b (register_user_session u a [])))).map _ = _
    rw [hs3]
    rfl
  · intro reg v h
    show (get_user_sessions v reg).map _ = _
    rw [h]
    rfl

/-- C9 witness: the fan-out behavior at concrete identifiers. -/
theorem c9_notification_fanout_witness :
    send_notification_to_user "u" "payload" (register_user_session "u" "B"
        (register_user_session "u" "A" [])) =
      [⟨Target.session "A", "notification", Payload.notificationData "payload"⟩,
       ⟨Target.session "B", "notification", Payload.notificationData "payload"⟩] ∧
    send_notification_to_user "u" "payload" (unregister_user_session "u" "A"
        (register_user_session "u" "B" (register_user_session "u" "A" []))) =
      [⟨Target.session "B", "notification", Payload.notificationData "payload"⟩] ∧
    ∀ (reg : Registry) (v : String), get_user_sessions v reg = [] →
      send_notification_to_user v "payload" reg = [] :=
  c9_notification_fanout "u" "A" "B" "payload" (by decide)

theorem disc_noop {st : PState} {s : String}
    (hsd : getVal s st.session_documents = none)
    (hsi : getVal s st.session_info = none) :
    disconnect_session s st = ([], st) := by
  have hdocs : docsOf s st = [] := by
    unfold docsOf
    rw [hsd]
    rfl
  unfold disconnect_session
  rw [hdocs, if_neg (by rw [hasKey, hsd]; simp),
    if_neg (by rw [hasKey, hsi]; simp)]
  rfl

/-- C10 (amended): disconnectAll is idempotent — a second run on the same
connection returns the empty list and leaves the state of the first run
unchanged — and it is a complete no-op on a connection with no reverse-index
entry and no stored session metadata. A connection that belongs to no room may
however still carry stored metadata left behind by leave, which the call
erases (see the counterexample). -/
theorem c10_disconnect_idempotent (s : String) (st : PState) :
    disconnect_session s (disconnect_session s st).2 =
      ([], (disconnect_session s st).2) ∧
    ((getVal s st.session_documents = none ∧ getVal s st.session_info = none) →
      disconnect_session s st = ([], st)) := by
  constructor
  · exact disc_noop (by rw [disc_sd_eq, if_pos rfl]) (by rw [disc_si_eq, if_pos rfl])
  · rintro ⟨h1, h2⟩
    exact disc_noop h1 h2

/-- C10 witness: the no-op branch of the theorem, applied to the fresh state. -/
theorem c10_disconnect_idempotent_witness :
    disconnect_session "x" initState = ([], initState) :=
  (c10_disconnect_idempotent "x" initState).2 ⟨rfl, rfl⟩

/-- C10 counterexample: after join(d, u, s) then leave(d, s) the connection s
belongs to no document room, yet disconnectAll(s) still mutates the state — it
deletes the leftover _session_info entry — returning the empty list but not
leaving every map unchanged. -/
theorem c10_disconnect_idempotent_cex :
    (leave_document "d" "s" stJoin1).2.document_users = [] ∧
    (disconnect_session "s" (leave_document "d" "s" stJoin1).2).1 = [] ∧
    (disconnect_session "s" (leave_document "d" "s" stJoin1).2).2 ≠
      (leave_document "d" "s" stJoin1).2 := by
  refine ⟨?_, ?_, ?_⟩
  · decide
  · decide
  · decide

/-! Registry behavior of the disconnect handler. -/

theorem sessions_unregister_subset {c u a b : String} {reg : Registry}
    (h : c ∈ get_user_sessions u (unregister_user_session a b reg)) :
    c ∈ get_user_sessions u reg := by
  unfold unregister_user_session at h
  by_cases hk : hasKey a reg = true
  · rw [if_pos hk] at h
    by_cases he : erase1 b ((getVal a reg).getD []) = []
    · rw [if_pos he] at h
      unfold get_user_sessions at h ⊢
      by_cases hu : u = a
      · rw [hu, getVal_delKey_self] at h
        exact absurd h (List.not_mem_nil c)
      · rw [getVal_delKey_ne hu] at h
        exact h
    · rw [if_neg he] at h
      unfold get_user_sessions at h ⊢
      by_cases hu : u = a
      · rw [hu] at h ⊢
        rw [getVal_setVal_self] at h
        exact mem_erase1 h
      · rw [getVal_setVal_ne hu] at h
        exact h
  · rw [if_neg hk] at h
    exact h

theorem foldEmit_unregister (s u : String) (i : SessionInfo)
    (hui : i.user_id = u) (hne : u ≠ "") :
    ∀ (left : List (String × Option SessionInfo)) (acc : Registry × List Emit),
      (∀ p ∈ left, p.2 = some i) →
      (left ≠ [] → (get_user_sessions u acc.1).Nodup →
        s ∉ get_user_sessions u (left.foldl (discEmitStep s) acc).1) ∧
      (s ∉ get_user_sessions u acc.1 →
        s ∉ get_user_sessions u (left.foldl (discEmitStep s) acc).1) := by
  intro left
  induction left with
  | nil =>
    intro acc hall
    exact ⟨fun h => absurd rfl h, fun h => h⟩
  | cons p rest ih =>
    intro acc hall
    have hp : p.2 = some i := hall p (List.mem_cons_self p rest)
    have hstep : (discEmitStep s acc p).1 = unregister_user_session u s acc.1 := by
      unfold discEmitStep
      simp only [hp]
      rw [hui, if_pos hne]
    rw [List.foldl_cons]
    constructor
    · intro _ hnd
      have h1 : s ∉ get_user_sessions u (discEmitStep s acc p).1 := by
        rw [hstep, sessions_unregister_self]
        exact not_mem_erase1_self s hnd
      exact (ih (discEmitStep s acc p)
        (fun q hq => hall q (List.mem_cons_of_mem p hq))).2 h1
    · intro h0
      have h1 : s ∉ get_user_sessions u (discEmitStep s acc p).1 := by
        rw [hstep]
        intro hc
        exact h0 (sessions_unregister_subset hc)
      exact (ih (discEmitStep s acc p)
        (fun q hq => hall q (List.mem_cons_of_mem p hq))).2 h1

theorem foldDisc_left_snd (s : String) (ui : Option SessionInfo) :
    ∀ (docs : List String)
      (acc : List (String × Option SessionInfo) × List (String × List (String × String))),
      (∀ p ∈ acc.1, p.2 = ui) →
      ∀ p ∈ (docs.foldl (discStep s ui) acc).1, p.2 = ui := by
  intro docs
  induction docs with
  | nil =>
    intro acc hall
    exact hall
  | cons d rest ih =>
    intro acc hall
    rw [List.foldl_cons]
    apply ih
    intro p hp
    unfold discStep at hp
    simp only at hp
    by_cases hf : (removeFromRooms s d acc.2).2 = true
    · rw [if_pos hf] at hp
      rcases List.mem_append.mp hp with h1 | h1
      · exact hall p h1
      · rw [List.mem_singleton.mp h1]
    · rw [if_neg hf] at hp
      exact hall p hp

theorem foldDisc_left_ne_nil (s : String) (ui : Option SessionInfo) :
    ∀ (docs : List String)
      (acc : List (String × Option SessionInfo) × List (String × List (String × String))),
      (acc.1 ≠ [] → (docs.foldl (discStep s ui) acc).1 ≠ []) ∧
      ((∃ d ∈ docs, ∃ e ∈ roomOfMap d acc.2, e.2 = s) →
        (docs.foldl (discStep s ui) acc).1 ≠ []) := by
  intro docs
  induction docs with
  | nil =>
    intro acc
    refine ⟨fun h => h, ?_⟩
    rintro ⟨d, hd, -⟩
    exact absurd hd (List.not_mem_nil d)
  | cons d rest ih =>
    intro acc
    have hstep1 : acc.1 ≠ [] → (discStep s ui acc d).1 ≠ [] := by
      intro h0
      unfold discStep
      simp only
      by_cases hf : (removeFromRooms s d acc.2).2 = true
      · rw [if_pos hf]
        simp
      · rw [if_neg hf]
        exact h0
    have hstepflag : (removeFromRooms s d acc.2).2 = true →
        (discStep s ui acc d).1 ≠ [] := by
      intro hf
      unfold discStep
      simp only
      rw [if_pos hf]
      simp
    rw [List.foldl_cons]
    constructor
    · intro h0
      exact (ih (discStep s ui acc d)).1 (hstep1 h0)
    · rintro ⟨d0, hd0, e, he, hes⟩
      by_cases hdd : d0 = d
      · have hflag : (removeFromRooms s d acc.2).2 = true :=
          (removeFromRooms_flag s d acc.2).mpr ⟨e, hdd ▸ he, hes⟩
        exact (ih (discStep s ui acc d)).1 (hstepflag hflag)
      · rcases List.mem_cons.mp hd0 with h1 | h1
        · exact absurd h1 hdd
        · refine (ih (discStep s ui acc d)).2 ⟨d0, h1, e, ?_, hes⟩
          rw [discStep_rooms, if_neg hdd]
          exact he

/-- C6 (amended): when the disconnecting connection s belonged to at least one
document room (a room listed in its reverse-index set holds a tuple of s),
presence recorded a nonempty user id u for it, and the registered session set
of u holds no duplicates, the disconnect handler removes the pair (u, s) from
the notification registry — in any state whatsoever, with no reachability
proviso. A connection in zero rooms is not unregistered, and the
unregistration is keyed by the user id presence recorded, not by the
registration key (see the counterexample). -/
theorem c6_disconnect_unregisters (st : PState)
    (reg : Registry) (u s : String) (i : SessionInfo)
    (hinfo : getVal s st.session_info = some i)
    (hui : i.user_id = u) (hne : u ≠ "")
    (hroom : ∃ d ∈ docsOf s st, ∃ e ∈ roomOf d st, e.2 = s)
    (hnd : (get_user_sessions u reg).Nodup) :
    s ∉ get_user_sessions u (handle_disconnect s st reg).2.1 := by
  have hlne : (disconnect_session s st).1 ≠ [] :=
    (foldDisc_left_ne_nil s (getVal s st.session_info) (docsOf s st)
      ([], st.document_users)).2 hroom
  have hall : ∀ p ∈ (disconnect_session s st).1, p.2 = some i := by
    intro p hp
    rw [← hinfo]
    exact foldDisc_left_snd s (getVal s st.session_info) (docsOf s st)
      ([], st.document_users) (fun q hq => absurd hq (List.not_mem_nil q)) p hp
  have hreg : (handle_disconnect s st reg).2.1 =
      ((disconnect_session s st).1.foldl (discEmitStep s) (reg, [])).1 := rfl
  rw [hreg]
  exact (foldEmit_unregister s u i hui hne (disconnect_session s st).1
    (reg, []) hall).1 hlne hnd

/-- C6 witness: a connection in one room, registered under the same user id,
is unregistered on disconnect. -/
theorem c6_disconnect_unregisters_witness :
    "s" ∉ get_user_sessions "u"
      (handle_disconnect "s" stJoin1 [("u", ["s"])]).2.1 :=
  c6_disconnect_unregisters stJoin1 [("u", ["s"])] "u" "s"
    ⟨"u", none, none, "t"⟩ (by decide) rfl (by decide) (by decide) (by decide)

/-- C6 counterexample: a connection registered in the registry but present in
no document room is not unregistered by the disconnect handler — the
unregistration happens only inside the loop over left rooms, so the
(userId, connectionId) pair survives the disconnect. -/
theorem c6_disconnect_unregisters_cex :
    (handle_disconnect "A" initState (register_user_session "u" "A" [])).2.1 =
      [("u", ["A"])] ∧
    "A" ∈ get_user_sessions "u"
      (handle_disconnect "A" initState (register_user_session "u" "A" [])).2.1 := by
  refine ⟨?_, ?_⟩
  · decide
  · decide
